import Mathlib

/-!
# Verification of the pandoras-box resource-distribution and dispatch engine

Shallow embedding of the TypeScript sources under `src/`:
* `src/distributor/distributor.ts` — native fund distribution (`Distributor`),
* `src/distributor/tokenDistributor.ts` — ERC20 token distribution (`TokenDistributor`),
* `src/runtime/batcher.ts` — batch generation and JSON-RPC dispatch (`Batcher`),
* `src/runtime/signer.ts` — sender-account preparation (`Signer`, `senderAccount`),
* `src/runtime/eoa.ts` — EOA transfer construction (`EOARuntime`).

`BigNumber` values (arbitrary-precision integers in ethers.js) are modelled as `Int`;
JS `number` values holding integral token amounts are likewise modelled as `Int`.
Network interactions (balance queries, gas estimation, batch responses, receipt
waits) are modelled as explicit oracle parameters, so every function is pure and
executable.
-/

namespace PandorasBox

/-- Derived wallet address for mnemonic index `i` (path `m/44'/60'/0'/0/i`).
Address derivation is an injective pure function of the index; the concrete
hex string is irrelevant to every claim, so it is modelled as a tagged string. -/
def addressOf (i : Nat) : String := "m/44h/60h/0h/0/" ++ toString i

/-- `distributeAccount` from `src/distributor/distributor.ts` (lines 13-23). -/
structure distributeAccount where
  missingFunds : Int
  address : String
  mnemonicIndex : Nat
  deriving Repr, DecidableEq

/-- `runtimeCosts` from `src/distributor/distributor.ts` (lines 25-33). -/
structure runtimeCosts where
  accDistributionCost : Int
  subAccount : Int
  deriving Repr, DecidableEq

/-- `tokenRuntimeCosts` from `src/distributor/tokenDistributor.ts` (lines 13-21). -/
structure tokenRuntimeCosts where
  totalCost : Int
  subAccount : Int
  deriving Repr, DecidableEq

/-- Modelled from the spec: `DistributorErrors.errNotEnoughFunds` lives in
`src/distributor/errors.ts`, which is not part of the provided sources; the spec
calls it the "insufficient funds" condition that is fatal for the run. -/
def errNotEnoughFunds : String := "insufficient funds"

/-- `Distributor.calculateRuntimeCosts` (`distributor.ts` lines 110-133).
`inherentValue = runtimeEstimator.GetValue()`, `baseTxEstimate = EstimateBaseTx()`,
`baseGasPrice = GetGasPrice()` and the gas estimate of the single distribution
transaction are network/runtime oracle values passed as parameters. -/
def calculateRuntimeCosts (inherentValue baseTxEstimate baseGasPrice : Int)
    (totalTx : Nat) (singleDistributionCost : Int) : runtimeCosts :=
  let baseTxCost := (baseGasPrice * baseTxEstimate + inherentValue) * 10
  let subAccountCost := (totalTx : Int) * baseTxCost
  ⟨singleDistributionCost, subAccountCost⟩

/-- Sum of `missingFunds` over a list of shortfall entries. -/
def sumMissing (l : List distributeAccount) : Int :=
  (l.map distributeAccount.missingFunds).sum

/-- The `while` loop shared verbatim (up to the threshold expression) by
`Distributor.getFundableAccounts` (`distributor.ts` lines 208-216, threshold
`costs.accDistributionCost`) and `TokenDistributor.getFundableAccounts`
(`tokenDistributor.ts` lines 261-266, threshold `costs.subAccount`):

    while (distributorBalance > threshold && initialSet.size() > 0) {
        const acc = initialSet.pop();
        distributorBalance -= acc.missingFunds;
        accountsToFund.push(acc);
    }

The `Heap` from the `heap` package is modelled as the list of its entries in pop
order (the comparator is degenerate on `distributeAccount` objects, so the pop
order is unspecified; every theorem below quantifies over an arbitrary order). -/
def fundableLoop (threshold : Int) : Int → List distributeAccount → List distributeAccount
  | _, [] => []
  | distributorBalance, acc :: rest =>
    if threshold < distributorBalance then
      acc :: fundableLoop threshold (distributorBalance - acc.missingFunds) rest
    else []

/-- `Distributor.getFundableAccounts` (`distributor.ts` lines 198-224).
`distributorBalance` is the oracle value of `ethWallet.getBalance()` observed at
the start of allocation; the thrown `errNotEnoughFunds` becomes `Except.error`. -/
def getFundableAccounts (costs : runtimeCosts) (distributorBalance : Int)
    (initialSet : List distributeAccount) : Except String (List distributeAccount) :=
  if (fundableLoop costs.accDistributionCost distributorBalance initialSet).length = 0 then
    .error errNotEnoughFunds
  else .ok (fundableLoop costs.accDistributionCost distributorBalance initialSet)

/-- `TokenDistributor.getFundableAccounts` (`tokenDistributor.ts` lines 252-274).
`distributorBalance` is the oracle value of `tokenRuntime.GetSupplierBalance()`. -/
def tokenGetFundableAccounts (costs : tokenRuntimeCosts) (distributorBalance : Int)
    (initialSet : List distributeAccount) : Except String (List distributeAccount) :=
  if (fundableLoop costs.subAccount distributorBalance initialSet).length = 0 then
    .error errNotEnoughFunds
  else .ok (fundableLoop costs.subAccount distributorBalance initialSet)

/-- Following the spec's words, for comparison with the code (claim C3): token
allocation that continues "as long as the source balance simply remains positive". -/
def tokenFundableLoopSpec : Int → List distributeAccount → List distributeAccount
  | _, [] => []
  | distributorBalance, acc :: rest =>
    if 0 < distributorBalance then
      acc :: tokenFundableLoopSpec (distributorBalance - acc.missingFunds) rest
    else []

/-! ## Batcher (`src/runtime/batcher.ts`) -/

/-- `batches[currentBatch].push(item)` on a JS array of arrays: out-of-range
indices leave the array unchanged (the source never hits that case when the
batch count is positive). -/
def pushAt {α : Type} (batches : List (List α)) (i : Nat) (x : α) : List (List α) :=
  batches.set i (batches.getD i [] ++ [x])

/-- The filling loop of `Batcher.generateBatches` (`batcher.ts` lines 25-32):

    let currentBatch = 0;
    for (const item of items) {
        batches[currentBatch].push(item);
        if (batches[currentBatch].length % batchSize == 0) currentBatch++;
    }
-/
def generateBatchesLoop {α : Type} (batchSize : Nat) :
    List α → List (List α) → Nat → List (List α)
  | [], batches, _ => batches
  | x :: xs, batches, currentBatch =>
    let batches' := pushAt batches currentBatch x
    let currentBatch' :=
      if (batches'.getD currentBatch []).length % batchSize = 0 then currentBatch + 1
      else currentBatch
    generateBatchesLoop batchSize xs batches' currentBatch'

/-- `Batcher.generateBatches` (`batcher.ts` lines 8-35).

For `batchSize = 0` the JS code computes `Math.ceil(n / 0)`: `NaN` when `n = 0`
(so `numBatches == 0` is false, no batch is initialized, and the item loop is
empty — the result is the empty array), and `Infinity` when `n > 0` (the batch
initialization loop `for (i = 0; i < Infinity; i++)` never terminates), modelled
as `none`. For `batchSize > 0` the function is total. -/
def generateBatches {α : Type} (items : List α) (batchSize : Nat) :
    Option (List (List α)) :=
  if batchSize = 0 then
    if items.isEmpty then some [] else none
  else
    let numBatches := (items.length + batchSize - 1) / batchSize
    let numBatches := if numBatches = 0 then 1 else numBatches
    some (generateBatchesLoop batchSize items (List.replicate numBatches []) 0)

/-- Reference chunking function used to state what `generateBatches` computes:
`chunksAcc b acc l` distributes `l` into consecutive groups of size `b`, the
first group being seeded with `acc`; the final (possibly short) group is always
emitted. -/
def chunksAcc {α : Type} (b : Nat) (acc : List α) : List α → List (List α)
  | [] => [acc]
  | x :: xs =>
    if acc.length + 1 = b then
      match xs with
      | [] => [acc ++ [x]]
      | _ :: _ => (acc ++ [x]) :: chunksAcc b [] xs
    else chunksAcc b (acc ++ [x]) xs

/-- One element of a JSON-RPC batch response: `{id, result}` or
`{id, error:{message}}` (`batcher.ts` lines 183-191). -/
inductive RpcResponseEntry : Type
  | error (msg : String)
  | result (txHash : String)
  deriving Repr, DecidableEq

/-- Outcome of one `axios` POST: a transport failure (the `catch` branch) or a
parsed batch response body. -/
inductive AttemptOutcome : Type
  | failure (msg : String)
  | response (entries : List RpcResponseEntry)
  deriving Repr, DecidableEq

/-- The response-processing loop shared by `Batcher.sendTransaction`
(`batcher.ts` lines 183-191) and `Batcher.sendTransactionWithRetry` (lines
215-222): each element with an `error` field appends its message to
`batchErrors`, every other element appends its `result` to `txHashes`. -/
def processContent (entries : List RpcResponseEntry)
    (batchErrors txHashes : List String) : List String × List String :=
  entries.foldl
    (fun st cnt =>
      match cnt with
      | .error msg => (st.1 ++ [msg], st.2)
      | .result h => (st.1, st.2 ++ [h]))
    (batchErrors, txHashes)

/-- `Batcher.sendTransaction` (`batcher.ts` lines 169-198): on transport failure
it recurses on itself without any bound, so with the environment's attempt
outcomes as an oracle list it diverges (`none`) when no listed attempt yields a
response. `requests` is the payload of submitted raw transactions; the source
never correlates responses with it. -/
def sendTransaction (requests : List String) (attempts : List AttemptOutcome)
    (batchErrors txHashes : List String) : Option (List String × List String) :=
  match attempts with
  | [] => none
  | .response entries :: _ => some (processContent entries batchErrors txHashes)
  | .failure _ :: rest => sendTransaction requests rest batchErrors txHashes

/-- `Batcher.sendTransactionWithRetry` (`batcher.ts` lines 200-233): up to
`maxRetries` attempts (the oracle list carries one outcome per attempt, so its
length is the retry bound, 3 at every call site); when every attempt fails the
function only logs "Max retries reached" and records nothing. -/
def sendTransactionWithRetry (requests : List String) (attempts : List AttemptOutcome)
    (batchErrors txHashes : List String) : List String × List String :=
  match attempts with
  | [] => (batchErrors, txHashes)
  | .response entries :: _ => processContent entries batchErrors txHashes
  | .failure _ :: rest => sendTransactionWithRetry requests rest batchErrors txHashes

/-- The first attempt outcome that is an actual response, if any. -/
def firstResponse : List AttemptOutcome → Option (List RpcResponseEntry)
  | [] => none
  | .response entries :: _ => some entries
  | .failure _ :: rest => firstResponse rest

/-- The transaction hashes `Batcher.batchTransactions` returns for a batch whose
response entries are `entries`: exactly the `result` fields, in order, of the
entries that carry no `error` field. -/
def txHashesOf (entries : List RpcResponseEntry) : List String :=
  (processContent entries [] []).2

/-! ## Funding dispatch and receipt wait (`fundAccounts` in both distributors) -/

/-- A transaction receipt as observed by `provider.waitForTransaction`; ethers
leaves `status` undefined (`none`) on pre-Byzantium receipts. -/
structure TxReceipt where
  status : Option Nat
  deriving Repr, DecidableEq

/-- Outcome of one `waitForTransaction` call inside the `try` block: the call
may throw (e.g. its one-minute timeout elapses), return `null`, or return a
receipt. -/
inductive WaitOutcome : Type
  | threw
  | ret (receipt : Option TxReceipt)
  deriving Repr, DecidableEq

/-- The receipt-wait loop shared verbatim by `Distributor.fundAccounts`
(`distributor.ts` lines 262-287) and `TokenDistributor.fundAccounts`
(`tokenDistributor.ts` lines 214-239): for each transaction hash `i`, the
account `accounts[i]` is paired with the wait outcome of `txHashes[i]`; a null
receipt or a receipt with `status != undefined && status == 0` throws, the
`catch` pushes the error onto `waitErrors`; otherwise
`accounts[i].mnemonicIndex` is pushed onto `readyMnemonicIndexes`. -/
def fundAccountsWait :
    List (distributeAccount × WaitOutcome) → List Nat → List String → List Nat × List String
  | [], readyMnemonicIndexes, waitErrors => (readyMnemonicIndexes, waitErrors)
  | (acc, o) :: rest, readyMnemonicIndexes, waitErrors =>
    match o with
    | .threw =>
      fundAccountsWait rest readyMnemonicIndexes (waitErrors ++ ["wait for transaction threw"])
    | .ret none =>
      fundAccountsWait rest readyMnemonicIndexes
        (waitErrors ++ ["transaction failed to be fetched in time"])
    | .ret (some txReceipt) =>
      if txReceipt.status ≠ none ∧ txReceipt.status = some 0 then
        fundAccountsWait rest readyMnemonicIndexes
          (waitErrors ++ ["transaction failed during execution"])
      else fundAccountsWait rest (readyMnemonicIndexes ++ [acc.mnemonicIndex]) waitErrors

/-- Decision the wait loop actually implements for one outcome: the index is
pushed exactly when a non-null receipt is returned whose `status` is not the
failure value `0` (an absent `status` counts as success). -/
def goodOutcome : WaitOutcome → Bool
  | .ret (some txReceipt) =>
    match txReceipt.status with
    | some 0 => false
    | _ => true
  | _ => false

/-- The error message the wait loop records for a failed outcome. -/
def waitMsg : WaitOutcome → String
  | .threw => "wait for transaction threw"
  | .ret none => "transaction failed to be fetched in time"
  | .ret (some _) => "transaction failed during execution"

/-- `Distributor.fundAccounts` (`distributor.ts` lines 226-298) after signing:
one funding transaction per account is submitted; the node's per-element batch
responses are `entries` (entry `i` answers account `i`'s transaction), the
surviving hashes are `txHashesOf entries`, and `wait` gives each hash's receipt
outcome. The loop then pairs `accounts[i]` with `txHashes[i]` positionally.
`TokenDistributor.fundAccounts` (`tokenDistributor.ts` lines 164-250) runs the
same wait loop after resetting `readyMnemonicIndexes` to `[]`, so it is this
model with `ready0 = []`. -/
def fundAccountsModel (accounts : List distributeAccount)
    (entries : List RpcResponseEntry) (wait : String → WaitOutcome)
    (ready0 : List Nat) : List Nat × List String :=
  let txHashes := txHashesOf entries
  fundAccountsWait (accounts.zip (txHashes.map wait)) ready0 []

/-! ## Shortfall scan (`findAccountsForDistribution` in both distributors) -/

/-- The scan loop of `Distributor.findAccountsForDistribution` (`distributor.ts`
lines 152-177), iterated over a list of mnemonic indices: an index whose balance
is below `singleRunCost` is recorded as a shortfall entry with
`missingFunds = singleRunCost - balance`; otherwise it is pushed onto
`readyMnemonicIndexes`. Returns (shortfall entries, ready indices) in scan
order. -/
def findScan (singleRunCost : Int) (balances : Nat → Int) :
    List Nat → List distributeAccount × List Nat
  | [] => ([], [])
  | i :: rest =>
    if balances i < singleRunCost then
      (⟨singleRunCost - balances i, addressOf i, i⟩
          :: (findScan singleRunCost balances rest).1,
        (findScan singleRunCost balances rest).2)
    else ((findScan singleRunCost balances rest).1,
      i :: (findScan singleRunCost balances rest).2)

/-- `Distributor.findAccountsForDistribution` (`distributor.ts` lines 135-182):
the native scan runs over indices `1 .. requestedSubAccounts`; `balances` is the
oracle of `addrWallet.getBalance()`. -/
def findAccountsForDistribution (singleRunCost : Int) (balances : Nat → Int)
    (requestedSubAccounts : Nat) : List distributeAccount × List Nat :=
  findScan singleRunCost balances (List.range' 1 requestedSubAccounts)

/-- The scan loop of `TokenDistributor.findAccountsForDistribution`
(`tokenDistributor.ts` lines 120-142): identical balance test, but there is no
`else` branch — an index with a sufficient token balance is recorded nowhere. -/
def tokenFindScan (singleRunCost : Int) (balances : Nat → Int) :
    List Nat → List distributeAccount
  | [] => []
  | i :: rest =>
    if balances i < singleRunCost then
      ⟨singleRunCost - balances i, addressOf i, i⟩ :: tokenFindScan singleRunCost balances rest
    else tokenFindScan singleRunCost balances rest

/-- `TokenDistributor.findAccountsForDistribution` (`tokenDistributor.ts` lines
103-148): the token scan runs over the current `readyMnemonicIndexes` list;
`balances` is the oracle of `tokenRuntime.GetTokenBalance`. -/
def tokenFindAccountsForDistribution (singleRunCost : Int) (balances : Nat → Int)
    (readyMnemonicIndexes : List Nat) : List distributeAccount :=
  tokenFindScan singleRunCost balances readyMnemonicIndexes

/-- `Distributor.distribute` (`distributor.ts` lines 70-108): cost table and
progress output dropped; the scan, the greedy allocation and the funding wait
are composed exactly as in the source. A thrown `errNotEnoughFunds` from
`getFundableAccounts` propagates out of `distribute` uncaught (`Except.error`);
receipt failures only accumulate in `waitErrors` and the run continues. -/
def distribute (costs : runtimeCosts) (balances : Nat → Int)
    (requestedSubAccounts : Nat) (distributorBalance : Int)
    (entries : List RpcResponseEntry) (wait : String → WaitOutcome) :
    Except String (List Nat) :=
  let scanned := findAccountsForDistribution costs.subAccount balances requestedSubAccounts
  if scanned.1.length = 0 then .ok scanned.2
  else
    match getFundableAccounts costs distributorBalance scanned.1 with
    | .error e => .error e
    | .ok fundableAccounts =>
      .ok (fundAccountsModel fundableAccounts entries wait scanned.2).1

/-! ## Signer (`src/runtime/signer.ts`) and EOA runtime (`src/runtime/eoa.ts`) -/

/-- `senderAccount` from `src/runtime/signer.ts` (lines 10-32). The wallet is
represented by the account's derived address. -/
structure senderAccount where
  mnemonicIndex : Nat
  nonce : Nat
  address : String
  deriving Repr, DecidableEq

/-- `senderAccount.incrNonce`. -/
def incrNonce (s : senderAccount) : senderAccount := { s with nonce := s.nonce + 1 }

/-- `senderAccount.getNonce`. -/
def getNonce (s : senderAccount) : Nat := s.nonce

/-- `senderAccount.getAddress`. -/
def getAddress (s : senderAccount) : String := s.address

/-- `Signer.getSenderAccounts` (`signer.ts` lines 43-83): derives the first
`min(accountIndexes.length, numTxs)` accounts and seeds each nonce with the
node's transaction count for that index (`txCount`, queried exactly once per
account). -/
def getSenderAccounts (txCount : Nat → Nat) (accountIndexes : List Nat)
    (numTxs : Nat) : List senderAccount :=
  let walletsToInit :=
    if accountIndexes.length > numTxs then numTxs else accountIndexes.length
  (accountIndexes.take walletsToInit).map
    (fun accIndex => ⟨accIndex, txCount accIndex, addressOf accIndex⟩)

/-- `FeeData` of ethers as consumed by `eoa.ts`: both dynamic-fee fields may be
null/undefined. -/
structure FeeData where
  maxFeePerGas : Option Int
  maxPriorityFeePerGas : Option Int
  deriving Repr, DecidableEq

/-- A `TransactionRequest` as populated by `EOARuntime.createTransferTransaction`
(`eoa.ts` lines 129-161). -/
structure TransactionRequest where
  sender : String
  chainId : Nat
  recipient : String
  gasLimit : Int
  value : Int
  nonce : Nat
  gasPrice : Option Int
  maxFeePerGas : Option Int
  maxPriorityFeePerGas : Option Int
  txType : Option Nat
  deriving Repr, DecidableEq

/-- `EOARuntime.createTransferTransaction` (`eoa.ts` lines 129-161). Only the
receiver's address is read from the receiver account. The dynamic branch throws
when either dynamic-fee field is undefined (`this.feeData` itself may be
undefined, modelled by the outer `Option`). -/
def createTransferTransaction (chainID : Nat) (gasEstimation defaultValue : Int)
    (feeData : Option FeeData) (sender : senderAccount) (receiverAddress : String)
    (gasPrice : Int) (dynamic : Bool) : Except String TransactionRequest :=
  let transaction : TransactionRequest :=
    { sender := getAddress sender, chainId := chainID, recipient := receiverAddress,
      gasLimit := gasEstimation, value := defaultValue, nonce := getNonce sender,
      gasPrice := none, maxFeePerGas := none, maxPriorityFeePerGas := none,
      txType := none }
  if dynamic then
    match feeData.bind FeeData.maxFeePerGas, feeData.bind FeeData.maxPriorityFeePerGas with
    | some mf, some mp =>
      .ok { transaction with
              maxFeePerGas := some (mf * 2), maxPriorityFeePerGas := some (mp * 2),
              txType := some 2 }
    | _, _ => .error "Dynamic fee data not available"
  else .ok { transaction with gasPrice := some gasPrice }

/-- The inner loop of `EOARuntime.ConstructTransactions` (`eoa.ts` lines
102-114) for sender `i`: for each `j` in the given list (`0 .. numOfTxPerAccount-1`
in the source), sign a transfer to `accounts[(i + j) % numAccounts]` at the
sender's current nonce, then increment the nonce. `receiverAddrs` is the list
of the accounts' (immutable) addresses. Returns the signed transactions (the
signed payload is modelled by the request it signs) and the sender's final
state. -/
def constructInner (chainID : Nat) (gasEstimation defaultValue : Int)
    (feeData : Option FeeData) (gasPrice : Int) (dynamic : Bool)
    (receiverAddrs : List String) (numAccounts i : Nat) :
    senderAccount → List Nat → Except String (List TransactionRequest × senderAccount)
  | sender, [] => .ok ([], sender)
  | sender, j :: js => do
    let receiverIndex := (i + j) % numAccounts
    let receiverAddress := receiverAddrs.getD receiverIndex ""
    let tx ← createTransferTransaction chainID gasEstimation defaultValue feeData
      sender receiverAddress gasPrice dynamic
    let rest ← constructInner chainID gasEstimation defaultValue feeData gasPrice dynamic
      receiverAddrs numAccounts i (incrNonce sender) js
    .ok (tx :: rest.1, rest.2)

/-- The outer loop of `EOARuntime.ConstructTransactions` (`eoa.ts` lines
98-117) over the enumerated sender accounts. -/
def constructOuter (chainID : Nat) (gasEstimation defaultValue : Int)
    (feeData : Option FeeData) (gasPrice : Int) (dynamic : Bool)
    (receiverAddrs : List String) (numAccounts numOfTxPerAccount : Nat) :
    List (Nat × senderAccount) → Except String (List (String × List TransactionRequest))
  | [] => .ok []
  | (i, sender) :: rest => do
    let txs ← constructInner chainID gasEstimation defaultValue feeData gasPrice dynamic
      receiverAddrs numAccounts i sender (List.range numOfTxPerAccount)
    let tail ← constructOuter chainID gasEstimation defaultValue feeData gasPrice dynamic
      receiverAddrs numAccounts numOfTxPerAccount rest
    .ok ((getAddress sender, txs.1) :: tail)

/-- `EOARuntime.ConstructTransactions` (`eoa.ts` lines 65-123): builds and signs
`numOfTxPerAccount` transactions per sender account; the result maps each
sender's address to its ordered signed transactions (a JS `Map` in insertion
order, modelled as an association list; addresses of distinct mnemonic indices
are distinct). `chainID`, `gasEstimation`, `feeData` are the values cached by
`EstimateBaseTx`, `gasPrice` the one cached by `GetGasPrice`. -/
def ConstructTransactions (chainID : Nat) (gasEstimation defaultValue : Int)
    (feeData : Option FeeData) (gasPrice : Int) (accounts : List senderAccount)
    (numOfTxPerAccount : Nat) (dynamic : Bool) :
    Except String (List (String × List TransactionRequest)) :=
  constructOuter chainID gasEstimation defaultValue feeData gasPrice dynamic
    (accounts.map getAddress) accounts.length numOfTxPerAccount accounts.enum

/-! ## Basic facts about the greedy allocation loop -/

theorem fundableLoop_nil (threshold bal : Int) : fundableLoop threshold bal [] = [] := rfl

theorem fundableLoop_cons (threshold bal : Int) (acc : distributeAccount)
    (rest : List distributeAccount) :
    fundableLoop threshold bal (acc :: rest) =
      if threshold < bal then
        acc :: fundableLoop threshold (bal - acc.missingFunds) rest
      else [] := rfl

/-- Every intermediate tracked balance strictly exceeds the threshold: the sum of
`missingFunds` over all selected entries *except the last*, subtracted from the
starting balance, still exceeds the threshold. -/
theorem fundableLoop_dropLast_sum (threshold : Int) :
    ∀ (initialSet : List distributeAccount) (bal : Int),
      fundableLoop threshold bal initialSet ≠ [] →
      sumMissing ((fundableLoop threshold bal initialSet).dropLast) + threshold < bal := by
  intro initialSet
  induction initialSet with
  | nil => intro bal h; exact absurd rfl h
  | cons acc rest ih =>
    intro bal hne0
    rw [fundableLoop_cons] at hne0 ⊢
    by_cases hb : threshold < bal
    · simp only [if_pos hb]
      rcases hr : fundableLoop threshold (bal - acc.missingFunds) rest with _ | ⟨y, ys⟩
      · simpa [sumMissing] using hb
      · have hne : fundableLoop threshold (bal - acc.missingFunds) rest ≠ [] := by
          rw [hr]; simp
        have := ih (bal - acc.missingFunds) hne
        rw [hr] at this
        rw [List.dropLast_cons_of_ne_nil (by simp)]
        simp only [sumMissing, List.map_cons, List.sum_cons] at this ⊢
        omega
    · rw [if_neg hb] at hne0
      exact absurd rfl hne0

/-- The loop selects a prefix of the shortfall collection (in pop order). -/
theorem fundableLoop_isPrefix (threshold : Int) :
    ∀ (initialSet : List distributeAccount) (bal : Int),
      ∃ k ≤ initialSet.length, fundableLoop threshold bal initialSet = initialSet.take k := by
  intro initialSet
  induction initialSet with
  | nil => intro bal; exact ⟨0, Nat.le_refl 0, rfl⟩
  | cons acc rest ih =>
    intro bal
    rw [fundableLoop_cons]
    by_cases hb : threshold < bal
    · obtain ⟨k, hk, heq⟩ := ih (bal - acc.missingFunds)
      refine ⟨k + 1, by simpa using Nat.succ_le_succ hk, ?_⟩
      simp [if_pos hb, heq]
    · exact ⟨0, Nat.zero_le _, by simp [if_neg hb]⟩

/-- Characterization of the selected prefix: the loop takes exactly the longest
prefix along which every intermediate tracked balance exceeds the threshold. -/
theorem fundableLoop_take_spec (threshold : Int) :
    ∀ (initialSet : List distributeAccount) (bal : Int),
      ∃ k ≤ initialSet.length,
        fundableLoop threshold bal initialSet = initialSet.take k ∧
        (∀ i < k, threshold < bal - sumMissing (initialSet.take i)) ∧
        (k < initialSet.length → bal - sumMissing (initialSet.take k) ≤ threshold) := by
  intro initialSet
  induction initialSet with
  | nil =>
    intro bal
    exact ⟨0, Nat.le_refl 0, rfl, by omega, by simp⟩
  | cons acc rest ih =>
    intro bal
    by_cases hb : threshold < bal
    · obtain ⟨k, hk, heq, hlt, hstop⟩ := ih (bal - acc.missingFunds)
      refine ⟨k + 1, by simpa using Nat.succ_le_succ hk, ?_, ?_, ?_⟩
      · rw [fundableLoop_cons, if_pos hb, heq]; rfl
      · intro i hi
        cases i with
        | zero => simpa [sumMissing] using hb
        | succ j =>
          have := hlt j (Nat.lt_of_succ_lt_succ hi)
          simp only [List.take_succ_cons, sumMissing, List.map_cons, List.sum_cons] at this ⊢
          omega
      · intro hlen
        have := hstop (Nat.lt_of_succ_lt_succ (by simpa using hlen))
        simp only [List.take_succ_cons, sumMissing, List.map_cons, List.sum_cons] at this ⊢
        omega
    · refine ⟨0, Nat.zero_le _, ?_, by omega, ?_⟩
      · rw [fundableLoop_cons, if_neg hb]; rfl
      · intro _
        simp only [List.take_zero, sumMissing, List.map_nil, List.sum_nil]
        omega

/-- `getFundableAccounts` succeeds exactly with the non-empty loop result. -/
theorem getFundableAccounts_ok_iff (costs : runtimeCosts) (bal : Int)
    (initialSet r : List distributeAccount) :
    getFundableAccounts costs bal initialSet = .ok r ↔
      fundableLoop costs.accDistributionCost bal initialSet = r ∧ r ≠ [] := by
  unfold getFundableAccounts
  by_cases h : (fundableLoop costs.accDistributionCost bal initialSet).length = 0
  · rw [if_pos h, List.length_eq_zero] at *
    constructor
    · intro he; exact absurd he (by simp)
    · rintro ⟨rfl, hne⟩; exact absurd h hne
  · rw [if_neg h]
    constructor
    · intro he
      injection he with he'
      refine ⟨he', ?_⟩
      rw [← he']
      intro hc
      exact h (by rw [hc]; rfl)
    · rintro ⟨rfl, _⟩; rfl

/-- `tokenGetFundableAccounts` succeeds exactly with the non-empty loop result. -/
theorem tokenGetFundableAccounts_ok_iff (costs : tokenRuntimeCosts) (bal : Int)
    (initialSet r : List distributeAccount) :
    tokenGetFundableAccounts costs bal initialSet = .ok r ↔
      fundableLoop costs.subAccount bal initialSet = r ∧ r ≠ [] := by
  unfold tokenGetFundableAccounts
  by_cases h : (fundableLoop costs.subAccount bal initialSet).length = 0
  · rw [if_pos h, List.length_eq_zero] at *
    constructor
    · intro he; exact absurd he (by simp)
    · rintro ⟨rfl, hne⟩; exact absurd h hne
  · rw [if_neg h]
    constructor
    · intro he
      injection he with he'
      refine ⟨he', ?_⟩
      rw [← he']
      intro hc
      exact h (by rw [hc]; rfl)
    · rintro ⟨rfl, _⟩; rfl

/-! ## Claim C1 — budget conservation of the greedy allocator -/

/-- C1, counterexample: with native costs `{accDistributionCost := 10,
subAccount := 100}`, a source balance of `50` observed at the start of
allocation, and a single shortfall entry missing `100` (an account with zero
balance), `Distributor.getFundableAccounts` selects that entry — the sum of
`missingFunds` over the returned accounts is `100`, which exceeds the source
balance `50`. The claimed invariant fails because the loop guard checks the
balance before subtracting a shortfall that may be larger than the balance. -/
theorem C1_budget_conservation_counterexample :
    getFundableAccounts ⟨10, 100⟩ 50 [⟨100, addressOf 1, 1⟩]
        = .ok [⟨100, addressOf 1, 1⟩] ∧
      ¬ sumMissing [⟨100, addressOf 1, 1⟩] ≤ 50 := by
  constructor
  · rfl
  · decide

/-- C1 (amended): the greedy allocator conserves the budget up to the *last*
selected entry: whenever the threshold (`accDistributionCost` natively, the
per-account token cost for tokens) is non-negative and allocation succeeds, the
sum of `missingFunds` over all returned accounts *except the last one* is
strictly below the source balance observed at the start of allocation; the full
sum can overshoot only by part of the last entry's `missingFunds`. -/
theorem C1_budget_conservation_amended :
    (∀ (costs : runtimeCosts) (distributorBalance : Int)
      (initialSet accountsToFund : List distributeAccount),
      0 ≤ costs.accDistributionCost →
      getFundableAccounts costs distributorBalance initialSet = .ok accountsToFund →
      sumMissing accountsToFund.dropLast < distributorBalance) ∧
    (∀ (costs : tokenRuntimeCosts) (distributorBalance : Int)
      (initialSet accountsToFund : List distributeAccount),
      0 ≤ costs.subAccount →
      tokenGetFundableAccounts costs distributorBalance initialSet = .ok accountsToFund →
      sumMissing accountsToFund.dropLast < distributorBalance) := by
  constructor
  · intro costs bal initialSet r hthr hok
    obtain ⟨hloop, hne⟩ := (getFundableAccounts_ok_iff costs bal initialSet r).mp hok
    have := fundableLoop_dropLast_sum costs.accDistributionCost initialSet bal
      (by rw [hloop]; exact hne)
    rw [hloop] at this
    omega
  · intro costs bal initialSet r hthr hok
    obtain ⟨hloop, hne⟩ := (tokenGetFundableAccounts_ok_iff costs bal initialSet r).mp hok
    have := fundableLoop_dropLast_sum costs.subAccount initialSet bal
      (by rw [hloop]; exact hne)
    rw [hloop] at this
    omega

/-- Witness for C1 (amended) at concrete inputs, native and token. -/
theorem C1_budget_conservation_amended_witness :
    sumMissing ([⟨100, addressOf 1, 1⟩] : List distributeAccount).dropLast < 50 ∧
      sumMissing ([⟨40, addressOf 2, 2⟩] : List distributeAccount).dropLast < 60 :=
  ⟨C1_budget_conservation_amended.1 ⟨10, 100⟩ 50 [⟨100, addressOf 1, 1⟩]
      [⟨100, addressOf 1, 1⟩] (by decide) rfl,
    C1_budget_conservation_amended.2 ⟨200, 50⟩ 60 [⟨40, addressOf 2, 2⟩]
      [⟨40, addressOf 2, 2⟩] (by decide) rfl⟩

/-! ## Claim C3 — greedy allocation stop condition -/

/-- C3, counterexample: the token loop does *not* continue while the tracked
balance merely remains positive. With per-account token cost `100`, supplier
balance `50` (positive) and one shortfall entry missing `10`, the code's loop
(`while (distributorBalance > costs.subAccount && ...)`) selects nothing and
`TokenDistributor.getFundableAccounts` throws `errNotEnoughFunds`, whereas the
loop written from the spec's words ("as long as the balance remains positive")
would select the entry. -/
theorem C3_stop_condition_counterexample :
    tokenGetFundableAccounts ⟨1000, 100⟩ 50 [⟨10, addressOf 1, 1⟩]
        = .error errNotEnoughFunds ∧
      tokenFundableLoopSpec 50 [⟨10, addressOf 1, 1⟩] = [⟨10, addressOf 1, 1⟩] ∧
      tokenGetFundableAccounts ⟨1000, 100⟩ 50 [⟨10, addressOf 1, 1⟩]
        ≠ .ok [⟨10, addressOf 1, 1⟩] := by
  refine ⟨rfl, rfl, ?_⟩
  intro h
  exact absurd h (by simp [tokenGetFundableAccounts, fundableLoop, errNotEnoughFunds])

/-- C3 (amended): both allocators pop one entry at a time, decrementing the
tracked balance by its `missingFunds`, and select exactly the longest prefix of
the collection (in pop order) along which the tracked balance stays *above the
threshold* — `accDistributionCost` in the native case and, in the token case,
the per-account token cost `costs.subAccount` (not merely above zero as the
claim stated); they stop when the collection is exhausted or the condition
fails. -/
theorem C3_stop_condition_amended :
    (∀ (costs : runtimeCosts) (bal : Int)
      (initialSet accountsToFund : List distributeAccount),
      getFundableAccounts costs bal initialSet = .ok accountsToFund →
      ∃ k ≤ initialSet.length,
        accountsToFund = initialSet.take k ∧
        (∀ i < k, costs.accDistributionCost < bal - sumMissing (initialSet.take i)) ∧
        (k < initialSet.length →
          bal - sumMissing (initialSet.take k) ≤ costs.accDistributionCost)) ∧
    (∀ (costs : tokenRuntimeCosts) (bal : Int)
      (initialSet accountsToFund : List distributeAccount),
      tokenGetFundableAccounts costs bal initialSet = .ok accountsToFund →
      ∃ k ≤ initialSet.length,
        accountsToFund = initialSet.take k ∧
        (∀ i < k, costs.subAccount < bal - sumMissing (initialSet.take i)) ∧
        (k < initialSet.length →
          bal - sumMissing (initialSet.take k) ≤ costs.subAccount)) := by
  constructor
  · intro costs bal initialSet r hok
    obtain ⟨hloop, _⟩ := (getFundableAccounts_ok_iff costs bal initialSet r).mp hok
    obtain ⟨k, hk, heq, h1, h2⟩ := fundableLoop_take_spec costs.accDistributionCost initialSet bal
    exact ⟨k, hk, by rw [← hloop, heq], h1, h2⟩
  · intro costs bal initialSet r hok
    obtain ⟨hloop, _⟩ := (tokenGetFundableAccounts_ok_iff costs bal initialSet r).mp hok
    obtain ⟨k, hk, heq, h1, h2⟩ := fundableLoop_take_spec costs.subAccount initialSet bal
    exact ⟨k, hk, by rw [← hloop, heq], h1, h2⟩

/-- Witness for C3 (amended) at concrete inputs, native and token. -/
theorem C3_stop_condition_amended_witness :
    (∃ k ≤ ([⟨30, addressOf 1, 1⟩] : List distributeAccount).length,
      ([⟨30, addressOf 1, 1⟩] : List distributeAccount)
          = ([⟨30, addressOf 1, 1⟩] : List distributeAccount).take k ∧
        (∀ i < k, (10 : Int) < 50 - sumMissing (([⟨30, addressOf 1, 1⟩]
          : List distributeAccount).take i)) ∧
        (k < ([⟨30, addressOf 1, 1⟩] : List distributeAccount).length →
          50 - sumMissing (([⟨30, addressOf 1, 1⟩] : List distributeAccount).take k)
            ≤ (10 : Int))) ∧
    (∃ k ≤ ([⟨30, addressOf 2, 2⟩] : List distributeAccount).length,
      ([⟨30, addressOf 2, 2⟩] : List distributeAccount)
          = ([⟨30, addressOf 2, 2⟩] : List distributeAccount).take k ∧
        (∀ i < k, (20 : Int) < 60 - sumMissing (([⟨30, addressOf 2, 2⟩]
          : List distributeAccount).take i)) ∧
        (k < ([⟨30, addressOf 2, 2⟩] : List distributeAccount).length →
          60 - sumMissing (([⟨30, addressOf 2, 2⟩] : List distributeAccount).take k)
            ≤ (20 : Int))) :=
  ⟨C3_stop_condition_amended.1 ⟨10, 100⟩ 50 [⟨30, addressOf 1, 1⟩]
      [⟨30, addressOf 1, 1⟩] rfl,
    C3_stop_condition_amended.2 ⟨300, 20⟩ 60 [⟨30, addressOf 2, 2⟩]
      [⟨30, addressOf 2, 2⟩] rfl⟩

/-! ## Claim C7 — zero allocated accounts is a fatal insufficient-funds error -/

/-- C7 (confirmed): when the shortfall collection is non-empty at entry, both
`getFundableAccounts` variants return the insufficient-funds error exactly when
the greedy allocation selects zero accounts; and in `Distributor.distribute`
this error aborts the run (it propagates out of `distribute` instead of being
accumulated as a recoverable per-account error). -/
theorem C7_insufficient_funds_fatal :
    (∀ (costs : runtimeCosts) (bal : Int) (initialSet : List distributeAccount),
      initialSet ≠ [] →
      (getFundableAccounts costs bal initialSet = .error errNotEnoughFunds ↔
        fundableLoop costs.accDistributionCost bal initialSet = [])) ∧
    (∀ (costs : tokenRuntimeCosts) (bal : Int) (initialSet : List distributeAccount),
      initialSet ≠ [] →
      (tokenGetFundableAccounts costs bal initialSet = .error errNotEnoughFunds ↔
        fundableLoop costs.subAccount bal initialSet = [])) ∧
    (∀ (costs : runtimeCosts) (balances : Nat → Int) (requestedSubAccounts : Nat)
      (bal : Int) (entries : List RpcResponseEntry) (wait : String → WaitOutcome),
      (findAccountsForDistribution costs.subAccount balances requestedSubAccounts).1 ≠ [] →
      fundableLoop costs.accDistributionCost bal
          (findAccountsForDistribution costs.subAccount balances requestedSubAccounts).1 = [] →
      distribute costs balances requestedSubAccounts bal entries wait
        = .error errNotEnoughFunds) := by
  refine ⟨?_, ?_, ?_⟩
  · intro costs bal initialSet _
    unfold getFundableAccounts
    by_cases h : (fundableLoop costs.accDistributionCost bal initialSet).length = 0
    · rw [if_pos h, List.length_eq_zero] at *
      simp [h]
    · rw [if_neg h]
      constructor
      · intro he; exact absurd he (by simp)
      · intro hc; exact absurd (by rw [hc]; rfl) h
  · intro costs bal initialSet _
    unfold tokenGetFundableAccounts
    by_cases h : (fundableLoop costs.subAccount bal initialSet).length = 0
    · rw [if_pos h, List.length_eq_zero] at *
      simp [h]
    · rw [if_neg h]
      constructor
      · intro he; exact absurd he (by simp)
      · intro hc; exact absurd (by rw [hc]; rfl) h
  · intro costs balances requestedSubAccounts bal entries wait hne hloop
    unfold distribute
    rw [if_neg (by simpa [List.length_eq_zero] using hne)]
    have herr : getFundableAccounts costs bal
        (findAccountsForDistribution costs.subAccount balances requestedSubAccounts).1
          = .error errNotEnoughFunds := by
      unfold getFundableAccounts
      rw [if_pos (by rw [hloop]; rfl)]
    rw [herr]

/-- Witness for C7 at concrete inputs: one requested sub-account with zero
balance against a required balance of `100`, a source balance of `5` below the
distribution cost `10` — allocation selects nothing, both allocators raise the
insufficient-funds error, and `distribute` aborts with it. -/
theorem C7_insufficient_funds_fatal_witness :
    (getFundableAccounts ⟨10, 100⟩ 5 [⟨100, addressOf 1, 1⟩]
        = .error errNotEnoughFunds) ∧
      (tokenGetFundableAccounts ⟨300, 20⟩ 5 [⟨20, addressOf 1, 1⟩]
        = .error errNotEnoughFunds) ∧
      distribute ⟨10, 100⟩ (fun _ => 0) 1 5 [] (fun _ => WaitOutcome.threw)
        = .error errNotEnoughFunds :=
  ⟨(C7_insufficient_funds_fatal.1 ⟨10, 100⟩ 5 [⟨100, addressOf 1, 1⟩]
      (by simp)).mpr rfl,
    (C7_insufficient_funds_fatal.2.1 ⟨300, 20⟩ 5 [⟨20, addressOf 1, 1⟩]
      (by simp)).mpr rfl,
    C7_insufficient_funds_fatal.2.2 ⟨10, 100⟩ (fun _ => 0) 1 5 []
      (fun _ => WaitOutcome.threw) (by simp [findAccountsForDistribution, findScan]) rfl⟩

/-! ## Claim C9 — native per-account funding target -/

/-- C9 (confirmed): `Distributor.calculateRuntimeCosts` computes the per-account
required balance (`subAccount`) as the single-operation cost — gas price times
gas estimate plus the workload's inherent value — multiplied by the number of
operations the account performs in the run (`totalTx`, which the engine passes
per account), inflated by a fixed safety factor of at least 10 (exactly 10 in
the source). -/
theorem C9_per_account_funding_target :
    ∀ (inherentValue baseTxEstimate baseGasPrice singleDistributionCost : Int)
      (totalTx : Nat),
      ∃ safetyFactor : Int, 10 ≤ safetyFactor ∧
        (calculateRuntimeCosts inherentValue baseTxEstimate baseGasPrice totalTx
            singleDistributionCost).subAccount
          = (baseGasPrice * baseTxEstimate + inherentValue) * safetyFactor * (totalTx : Int) :=
  fun v e g _ t => ⟨10, le_refl 10, by simp only [calculateRuntimeCosts]; ring⟩

/-! ## Facts about `generateBatches` -/

theorem chunksAcc_nil {α : Type} (b : Nat) (acc : List α) : chunksAcc b acc [] = [acc] := rfl

theorem chunksAcc_cons {α : Type} (b : Nat) (acc : List α) (x : α) (xs : List α) :
    chunksAcc b acc (x :: xs) =
      if acc.length + 1 = b then
        match xs with
        | [] => [acc ++ [x]]
        | _ :: _ => (acc ++ [x]) :: chunksAcc b [] xs
      else chunksAcc b (acc ++ [x]) xs := rfl

theorem getD_append_cons {α : Type} (done : List (List α)) (cur : List α)
    (e : List (List α)) : (done ++ cur :: e).getD done.length [] = cur := by
  induction done with
  | nil => rfl
  | cons d ds ih => exact ih

theorem set_append_cons {α : Type} (done : List α) (cur : α) (e : List α) (v : α) :
    (done ++ cur :: e).set done.length v = done ++ v :: e := by
  induction done with
  | nil => rfl
  | cons d ds ih => exact congrArg (d :: ·) ih

theorem pushAt_append_cons {α : Type} (done : List (List α)) (cur : List α)
    (e : List (List α)) (x : α) :
    pushAt (done ++ cur :: e) done.length x = done ++ (cur ++ [x]) :: e := by
  unfold pushAt
  rw [getD_append_cons, set_append_cons]

theorem generateBatchesLoop_cons {α : Type} (b : Nat) (x : α) (xs : List α)
    (batches : List (List α)) (currentBatch : Nat) :
    generateBatchesLoop b (x :: xs) batches currentBatch =
      generateBatchesLoop b xs (pushAt batches currentBatch x)
        (if ((pushAt batches currentBatch x).getD currentBatch []).length % b = 0
          then currentBatch + 1 else currentBatch) := rfl

theorem chunksAcc_ne_nil {α : Type} (b : Nat) :
    ∀ (l acc : List α), chunksAcc b acc l ≠ [] := by
  intro l
  induction l with
  | nil => intro acc; simp [chunksAcc_nil]
  | cons x xs ih =>
    intro acc
    rw [chunksAcc_cons]
    by_cases h : acc.length + 1 = b
    · rw [if_pos h]; cases xs <;> simp
    · rw [if_neg h]; exact ih _

theorem generateBatchesLoop_spec {α : Type} (b : Nat) (hb : 0 < b) :
    ∀ (items : List α) (done : List (List α)) (cur : List α) (empties : Nat),
      cur.length < b →
      items.length ≤ (b - cur.length) + b * empties →
      (0 < empties → (b - cur.length) + b * empties < items.length + b) →
      generateBatchesLoop b items (done ++ cur :: List.replicate empties []) done.length
        = done ++ chunksAcc b cur items := by
  intro items
  induction items with
  | nil =>
    intro done cur empties hcur hcap hlow
    have he : empties = 0 := by
      by_contra h
      have h0 : 0 < empties := Nat.pos_of_ne_zero h
      have h1 := hlow h0
      have h2 : b ≤ b * empties := Nat.le_mul_of_pos_right b h0
      simp only [List.length_nil] at h1 hcap
      omega
    subst he
    rfl
  | cons x xs ih =>
    intro done cur empties hcur hcap hlow
    rw [generateBatchesLoop_cons, pushAt_append_cons, getD_append_cons]
    have hlen : (cur ++ [x]).length = cur.length + 1 := by simp
    by_cases hfull : cur.length + 1 = b
    · have hmod : (cur ++ [x]).length % b = 0 := by
        rw [hlen, hfull, Nat.mod_self]
      rw [if_pos hmod]
      cases empties with
      | zero =>
        have hxs : xs = [] := by
          rw [← List.length_eq_zero]
          simp only [List.length_cons, Nat.mul_zero] at hcap
          omega
        subst hxs
        rw [chunksAcc_cons, if_pos hfull]
        rfl
      | succ e =>
        have h2 : b * (e + 1) = b * e + b := by ring
        have hxs : xs ≠ [] := by
          intro hc
          subst hc
          have h1 := hlow (Nat.succ_pos e)
          simp only [List.length_cons, List.length_nil] at h1 hcap
          omega
        have hstate : done ++ (cur ++ [x]) :: List.replicate (e + 1) ([] : List α)
            = (done ++ [cur ++ [x]]) ++ ([] : List α) :: List.replicate e [] := by
          simp [List.replicate_succ]
        have hidx : done.length + 1 = (done ++ [cur ++ [x]]).length := by simp
        rw [hstate, hidx,
          ih (done ++ [cur ++ [x]]) [] e (by simpa using hb)
            (by
              simp only [List.length_cons, List.length_nil, Nat.sub_zero] at hcap ⊢
              omega)
            (by
              intro _
              have h1 := hlow (Nat.succ_pos e)
              simp only [List.length_cons, List.length_nil, Nat.sub_zero] at h1 ⊢
              omega)]
        rcases xs with _ | ⟨y, ys⟩
        · exact absurd rfl hxs
        · conv_rhs => rw [chunksAcc_cons]
          rw [if_pos hfull]
          simp
    · have hmod : ¬ (cur ++ [x]).length % b = 0 := by
        rw [hlen, Nat.mod_eq_of_lt (by omega)]
        omega
      rw [if_neg hmod,
        ih done (cur ++ [x]) empties (by omega)
          (by
            simp only [List.length_cons, hlen] at hcap ⊢
            omega)
          (by
            intro h0
            have h1 := hlow h0
            simp only [List.length_cons, hlen] at h1 ⊢
            omega)]
      rw [chunksAcc_cons, if_neg hfull]

theorem generateBatches_eq_chunksAcc {α : Type} (items : List α) (b : Nat)
    (hb : 0 < b) : generateBatches items b = some (chunksAcc b [] items) := by
  have hq := Nat.div_add_mod (items.length + b - 1) b
  have hmlt : (items.length + b - 1) % b < b := Nat.mod_lt _ hb
  unfold generateBatches
  rw [if_neg (Nat.pos_iff_ne_zero.mp hb)]
  show some (generateBatchesLoop b items
      (List.replicate (if (items.length + b - 1) / b = 0 then 1
        else (items.length + b - 1) / b) []) 0) = _
  by_cases h0 : (items.length + b - 1) / b = 0
  · have hitems : items = [] := by
      rw [← List.length_eq_zero]
      rw [h0] at hq
      omega
    subst hitems
    rw [if_pos h0]
    rfl
  · rw [if_neg h0]
    obtain ⟨e, he⟩ : ∃ e, (items.length + b - 1) / b = e + 1 :=
      ⟨(items.length + b - 1) / b - 1,
        (Nat.succ_pred_eq_of_pos (Nat.pos_of_ne_zero h0)).symm⟩
    rw [he] at hq ⊢
    have h2 : b * (e + 1) = b * e + b := by ring
    rw [h2] at hq
    congr 1
    have hstate : List.replicate (e + 1) ([] : List α)
        = [] ++ ([] : List α) :: List.replicate e [] := by
      rw [List.replicate_succ]
      rfl
    rw [hstate]
    exact generateBatchesLoop_spec b hb items [] [] e hb
      (by simp only [List.length_nil, Nat.sub_zero]; omega)
      (by intro h1; simp only [List.length_nil, Nat.sub_zero]; omega)

theorem chunksAcc_flatten {α : Type} (b : Nat) :
    ∀ (l acc : List α), (chunksAcc b acc l).flatten = acc ++ l := by
  intro l
  induction l with
  | nil => intro acc; simp [chunksAcc_nil]
  | cons x xs ih =>
    intro acc
    rw [chunksAcc_cons]
    by_cases h : acc.length + 1 = b
    · rw [if_pos h]
      cases xs with
      | nil => simp
      | cons y ys => simp [ih []]
    · rw [if_neg h, ih (acc ++ [x])]
      simp

theorem chunksAcc_dropLast_length {α : Type} (b : Nat) :
    ∀ (l acc : List α), acc.length < b →
      ∀ batch ∈ (chunksAcc b acc l).dropLast, batch.length = b := by
  intro l
  induction l with
  | nil => intro acc _; simp [chunksAcc_nil]
  | cons x xs ih =>
    intro acc hacc batch hmem
    rw [chunksAcc_cons] at hmem
    by_cases h : acc.length + 1 = b
    · rw [if_pos h] at hmem
      cases xs with
      | nil => simp at hmem
      | cons y ys =>
        rw [List.dropLast_cons_of_ne_nil (chunksAcc_ne_nil b (y :: ys) [])] at hmem
        rcases List.mem_cons.mp hmem with rfl | hmem'
        · simpa using h
        · exact ih [] (by simp only [List.length_nil]; omega) batch hmem'
    · rw [if_neg h] at hmem
      exact ih (acc ++ [x]) (by simp only [List.length_append,
        List.length_cons, List.length_nil]; omega) batch hmem

/-! ## Claim C5 — batch partition correctness -/

/-- C5, counterexample: `batchSize = 0` is non-negative, and for the empty item
list the claim demands exactly one empty group; but `generateBatches [] 0`
computes `Math.ceil(0/0) = NaN` batches, initializes none, and returns the
empty list of groups — zero groups, not one. (For `batchSize = 0` and a
non-empty input the source does not even terminate.) -/
theorem C5_batch_partition_counterexample :
    generateBatches ([] : List Nat) 0 = some [] ∧
      some ([] : List (List Nat)) ≠ some [[]] := by
  constructor
  · rfl
  · simp

/-- C5 (amended): for every item list and every *positive* `batchSize`,
`generateBatches` terminates and returns groups whose sizes are all `batchSize`
except possibly the last, whose concatenation is the input sequence in its
original order, and for an empty input it returns exactly one empty group. (As
stated, over all non-negative batch sizes, the claim fails at `batchSize = 0`.) -/
theorem C5_batch_partition_amended :
    ∀ (α : Type) (items : List α) (batchSize : Nat), 0 < batchSize →
      ∃ batches, generateBatches items batchSize = some batches ∧
        batches.flatten = items ∧
        (∀ batch ∈ batches.dropLast, batch.length = batchSize) ∧
        (items = [] → batches = [[]]) := by
  intro α items b hb
  refine ⟨chunksAcc b [] items, generateBatches_eq_chunksAcc items b hb, ?_, ?_, ?_⟩
  · simpa using chunksAcc_flatten b items []
  · exact chunksAcc_dropLast_length b items [] (by simpa using hb)
  · rintro rfl; rfl

/-- Witness for C5 (amended): five items with batch size two. -/
theorem C5_batch_partition_amended_witness :
    ∃ batches, generateBatches [1, 2, 3, 4, 5] 2 = some batches ∧
      batches.flatten = [1, 2, 3, 4, 5] ∧
      (∀ batch ∈ batches.dropLast, batch.length = 2) ∧
      (([1, 2, 3, 4, 5] : List Nat) = [] → batches = [[]]) :=
  C5_batch_partition_amended Nat [1, 2, 3, 4, 5] 2 (by decide)

/-! ## Facts about the funding receipt-wait loop -/

/-- Closed form of the receipt-wait loop: the ready list grows by the mnemonic
indices of exactly those pairs whose wait outcome is a non-null receipt with a
non-zero (or absent) status, in order; `waitErrors` grows by one message per
failed pair. -/
theorem fundAccountsWait_spec :
    ∀ (pairs : List (distributeAccount × WaitOutcome)) (ready : List Nat)
      (errs : List String),
      fundAccountsWait pairs ready errs
        = (ready ++ (pairs.filter (fun p => goodOutcome p.2)).map
              (fun p => p.1.mnemonicIndex),
           errs ++ (pairs.filter (fun p => ! goodOutcome p.2)).map
              (fun p => waitMsg p.2)) := by
  intro pairs
  induction pairs with
  | nil => intro ready errs; simp [fundAccountsWait]
  | cons p rest ih =>
    intro ready errs
    obtain ⟨acc, o⟩ := p
    match o with
    | .threw =>
      show fundAccountsWait rest ready (errs ++ ["wait for transaction threw"]) = _
      rw [ih]
      simp [goodOutcome, waitMsg, List.filter_cons]
    | .ret none =>
      show fundAccountsWait rest ready
          (errs ++ ["transaction failed to be fetched in time"]) = _
      rw [ih]
      simp [goodOutcome, waitMsg, List.filter_cons]
    | .ret (some txReceipt) =>
      show (if txReceipt.status ≠ none ∧ txReceipt.status = some 0 then
              fundAccountsWait rest ready
                (errs ++ ["transaction failed during execution"])
            else fundAccountsWait rest (ready ++ [acc.mnemonicIndex]) errs) = _
      rcases hst : txReceipt.status with _ | k
      · rw [if_neg (by simp [hst]), ih]
        simp [goodOutcome, hst, waitMsg, List.filter_cons]
      · cases k with
        | zero =>
          rw [if_pos (by simp [hst]), ih]
          simp [goodOutcome, hst, waitMsg, List.filter_cons]
        | succ m =>
          rw [if_neg (by simp [hst]), ih]
          simp [goodOutcome, hst, waitMsg, List.filter_cons]

/-! ## Claim C4 — receipt gate for marking an account ready -/

/-- C4, counterexample: account 1's funding transaction is rejected by the node
(batch entry 0 is an error), account 2's is accepted as hash `"h2"` (entry 1)
and its receipt is observed with success status `1` within the timeout. Because
`batchTransactions` drops errored entries from the returned hash list and the
wait loop pairs `accounts[i]` with `txHashes[i]` positionally, the result is
`([1], [])`: account 1 — which was never even accepted — is marked ready on the
strength of account 2's receipt, while account 2, whose own receipt was
observed and successful, is neither marked ready nor recorded in `waitErrors`.
Both directions of the claimed "iff" fail. -/
theorem C4_receipt_gate_counterexample :
    fundAccountsModel [⟨100, addressOf 1, 1⟩, ⟨100, addressOf 2, 2⟩]
        [RpcResponseEntry.error "nonce too low", RpcResponseEntry.result "h2"]
        (fun h => if h = "h2" then WaitOutcome.ret (some ⟨some 1⟩)
          else WaitOutcome.threw) []
      = ([1], []) ∧
    (fun (h : String) => if h = "h2" then WaitOutcome.ret (some ⟨some 1⟩)
        else WaitOutcome.threw) "h2" = WaitOutcome.ret (some ⟨some 1⟩) ∧
    (2 : Nat) ∉ (fundAccountsModel [⟨100, addressOf 1, 1⟩, ⟨100, addressOf 2, 2⟩]
        [RpcResponseEntry.error "nonce too low", RpcResponseEntry.result "h2"]
        (fun h => if h = "h2" then WaitOutcome.ret (some ⟨some 1⟩)
          else WaitOutcome.threw) []).1 := by
  refine ⟨?_, rfl, ?_⟩
  · rfl
  · decide

/-- C4 (amended): after the funding dispatch step, the wait loop walks the
*positionally paired* list of allocated accounts and returned transaction
hashes (submissions the node rejected are dropped from the hash list, so the
pairing can shift and trailing accounts are skipped silently). For each
processed pair, the account's index is added to `readyMnemonicIndexes` iff the
wait on the paired hash yields a receipt (non-null, within the one-minute
timeout) whose status is not the failure value `0`; otherwise exactly one
non-fatal error message is appended to `waitErrors` and the index is left out
for this cycle, the loop continuing either way. -/
theorem C4_receipt_gate_amended :
    (∀ (accounts : List distributeAccount) (entries : List RpcResponseEntry)
      (wait : String → WaitOutcome) (ready0 : List Nat),
      fundAccountsModel accounts entries wait ready0
        = (ready0 ++ ((accounts.zip ((txHashesOf entries).map wait)).filter
              (fun p => goodOutcome p.2)).map (fun p => p.1.mnemonicIndex),
           ((accounts.zip ((txHashesOf entries).map wait)).filter
              (fun p => ! goodOutcome p.2)).map (fun p => waitMsg p.2))) ∧
    (∀ o : WaitOutcome, goodOutcome o = true ↔
      ∃ r : TxReceipt, o = WaitOutcome.ret (some r) ∧ r.status ≠ some 0) := by
  constructor
  · intro accounts entries wait ready0
    show fundAccountsWait (accounts.zip ((txHashesOf entries).map wait)) ready0 [] = _
    rw [fundAccountsWait_spec]
    rfl
  · intro o
    constructor
    · intro hg
      match o with
      | .threw => exact absurd hg (by simp [goodOutcome])
      | .ret none => exact absurd hg (by simp [goodOutcome])
      | .ret (some r) =>
        refine ⟨r, rfl, ?_⟩
        intro hc
        rw [goodOutcome, hc] at hg
        exact absurd hg (by simp)
    · rintro ⟨r, rfl, hr⟩
      rw [goodOutcome]
      rcases hst : r.status with _ | k
      · rfl
      · cases k with
        | zero => exact absurd (by rw [hst]) hr
        | succ m => rfl

/-! ## Claim C10 — undefined receipt status counts as success -/

/-- C10 (confirmed): in the funding receipt check of both distributors, a
non-null receipt whose `status` field is undefined passes the gate — the
account's index is pushed onto `readyMnemonicIndexes` whenever
`waitForTransaction` returns a non-null receipt whose status is not the failure
value `0`, including receipts that carry no status at all. -/
theorem C10_undefined_status_success :
    goodOutcome (WaitOutcome.ret (some ⟨none⟩)) = true ∧
    ∀ (pairs : List (distributeAccount × WaitOutcome)) (ready0 : List Nat)
      (errs0 : List String) (p : distributeAccount × WaitOutcome),
      p ∈ pairs → p.2 = WaitOutcome.ret (some ⟨none⟩) →
      p.1.mnemonicIndex ∈ (fundAccountsWait pairs ready0 errs0).1 := by
  constructor
  · rfl
  · intro pairs ready0 errs0 p hmem hout
    rw [fundAccountsWait_spec]
    refine List.mem_append_right _ ?_
    refine List.mem_map_of_mem _ (List.mem_filter.mpr ⟨hmem, ?_⟩)
    rw [hout]
    rfl

/-- Witness for C10: one account whose receipt arrives with no status field at
all; its index `7` is marked ready. -/
theorem C10_undefined_status_success_witness :
    goodOutcome (WaitOutcome.ret (some ⟨none⟩)) = true ∧
      (7 : Nat) ∈ (fundAccountsWait
        [(⟨5, addressOf 7, 7⟩, WaitOutcome.ret (some ⟨none⟩))] [] []).1 :=
  ⟨C10_undefined_status_success.1,
    C10_undefined_status_success.2
      [(⟨5, addressOf 7, 7⟩, WaitOutcome.ret (some ⟨none⟩))] [] []
      (⟨5, addressOf 7, 7⟩, WaitOutcome.ret (some ⟨none⟩)) (by simp) rfl⟩

/-! ## Facts about the shortfall scans -/

theorem findScan_nil (cost : Int) (balances : Nat → Int) :
    findScan cost balances [] = ([], []) := rfl

theorem findScan_cons (cost : Int) (balances : Nat → Int) (i : Nat) (rest : List Nat) :
    findScan cost balances (i :: rest) =
      if balances i < cost then
        (⟨cost - balances i, addressOf i, i⟩ :: (findScan cost balances rest).1,
          (findScan cost balances rest).2)
      else ((findScan cost balances rest).1, i :: (findScan cost balances rest).2) := rfl

theorem tokenFindScan_cons (cost : Int) (balances : Nat → Int) (i : Nat)
    (rest : List Nat) :
    tokenFindScan cost balances (i :: rest) =
      if balances i < cost then
        ⟨cost - balances i, addressOf i, i⟩ :: tokenFindScan cost balances rest
      else tokenFindScan cost balances rest := rfl

/-- Closed form of the native scan loop: shortfall entries for exactly the
indices below the required balance (with `missingFunds = cost − balance`),
ready indices for all the others, both in scan order. -/
theorem findScan_eq (cost : Int) (balances : Nat → Int) :
    ∀ idxs : List Nat,
      findScan cost balances idxs
        = ((idxs.filter (fun i => decide (balances i < cost))).map
            (fun i => ⟨cost - balances i, addressOf i, i⟩),
           idxs.filter (fun i => ! decide (balances i < cost))) := by
  intro idxs
  induction idxs with
  | nil => rfl
  | cons i rest ih =>
    rw [findScan_cons]
    by_cases h : balances i < cost
    · rw [if_pos h, ih]
      simp [List.filter_cons, h]
    · rw [if_neg h, ih]
      simp [List.filter_cons, h]

/-- Closed form of the token scan loop: shortfall entries only; an index with a
sufficient token balance is recorded nowhere by the scan. -/
theorem tokenFindScan_eq (cost : Int) (balances : Nat → Int) :
    ∀ idxs : List Nat,
      tokenFindScan cost balances idxs
        = (idxs.filter (fun i => decide (balances i < cost))).map
            (fun i => ⟨cost - balances i, addressOf i, i⟩) := by
  intro idxs
  induction idxs with
  | nil => rfl
  | cons i rest ih =>
    rw [tokenFindScan_cons]
    by_cases h : balances i < cost
    · rw [if_pos h, ih]
      simp [List.filter_cons, h]
    · rw [if_neg h, ih]
      simp [List.filter_cons, h]

/-! ## Claim C8 — shortfall scan -/

/-- C8 (confirmed): for every candidate index, both distributors compare the
queried balance against the per-account required cost. Below the cost, a
shortfall entry with `missingFunds = cost − balance` is recorded (both
distributors); otherwise the native scan pushes the index onto
`readyMnemonicIndexes`, while the token scan — which iterates over the current
`readyMnemonicIndexes` and leaves that list untouched — leaves the index
standing in the ready set. In both scans every scanned index therefore ends up
in the shortfall collection or in the ready set. -/
theorem C8_shortfall_scan :
    ∀ (cost : Int) (balances : Nat → Int) (requestedSubAccounts : Nat)
      (readyMnemonicIndexes : List Nat),
      ((findAccountsForDistribution cost balances requestedSubAccounts).1
          = ((List.range' 1 requestedSubAccounts).filter
              (fun i => decide (balances i < cost))).map
              (fun i => ⟨cost - balances i, addressOf i, i⟩) ∧
        (findAccountsForDistribution cost balances requestedSubAccounts).2
          = (List.range' 1 requestedSubAccounts).filter
              (fun i => ! decide (balances i < cost)) ∧
        ∀ i ∈ List.range' 1 requestedSubAccounts,
          (∃ e ∈ (findAccountsForDistribution cost balances requestedSubAccounts).1,
              e.mnemonicIndex = i ∧ e.missingFunds = cost - balances i) ∨
            i ∈ (findAccountsForDistribution cost balances requestedSubAccounts).2) ∧
      (tokenFindAccountsForDistribution cost balances readyMnemonicIndexes
          = (readyMnemonicIndexes.filter (fun i => decide (balances i < cost))).map
              (fun i => ⟨cost - balances i, addressOf i, i⟩) ∧
        ∀ i ∈ readyMnemonicIndexes,
          (∃ e ∈ tokenFindAccountsForDistribution cost balances readyMnemonicIndexes,
              e.mnemonicIndex = i ∧ e.missingFunds = cost - balances i) ∨
            i ∈ readyMnemonicIndexes) := by
  intro cost balances requestedSubAccounts readyMnemonicIndexes
  refine ⟨⟨?_, ?_, ?_⟩, ?_, ?_⟩
  · rw [findAccountsForDistribution, findScan_eq]
  · rw [findAccountsForDistribution, findScan_eq]
  · intro i hi
    by_cases h : balances i < cost
    · refine Or.inl ⟨⟨cost - balances i, addressOf i, i⟩, ?_, rfl, rfl⟩
      rw [findAccountsForDistribution, findScan_eq]
      exact List.mem_map_of_mem _ (List.mem_filter.mpr ⟨hi, by simp [h]⟩)
    · refine Or.inr ?_
      rw [findAccountsForDistribution, findScan_eq]
      exact List.mem_filter.mpr ⟨hi, by simp [h]⟩
  · rw [tokenFindAccountsForDistribution, tokenFindScan_eq]
  · intro i hi
    exact Or.inr hi

/-- Witness for C8: required cost `100`, balances `60·i`, two candidate
accounts — index 1 (balance 60) is short by 40, index 2 (balance 120) is ready. -/
theorem C8_shortfall_scan_witness :
    ((∃ e ∈ (findAccountsForDistribution 100 (fun i => 60 * i) 2).1,
        e.mnemonicIndex = 1 ∧ e.missingFunds = 100 - 60 * 1) ∨
      1 ∈ (findAccountsForDistribution 100 (fun i => 60 * i) 2).2) ∧
    ((∃ e ∈ (findAccountsForDistribution 100 (fun i => 60 * i) 2).1,
        e.mnemonicIndex = 2 ∧ e.missingFunds = 100 - 60 * 2) ∨
      2 ∈ (findAccountsForDistribution 100 (fun i => 60 * i) 2).2) ∧
    ((∃ e ∈ tokenFindAccountsForDistribution 100 (fun i => 60 * i) [1, 2],
        e.mnemonicIndex = 1 ∧ e.missingFunds = 100 - 60 * 1) ∨
      1 ∈ ([1, 2] : List Nat)) :=
  ⟨(C8_shortfall_scan 100 (fun i => 60 * i) 2 [1, 2]).1.2.2 1 (by decide),
    (C8_shortfall_scan 100 (fun i => 60 * i) 2 [1, 2]).1.2.2 2 (by decide),
    (C8_shortfall_scan 100 (fun i => 60 * i) 2 [1, 2]).2.2 1 (by decide)⟩

/-! ## Facts about response processing and retries -/

theorem processContent_cons (cnt : RpcResponseEntry) (rest : List RpcResponseEntry)
    (errs ids : List String) :
    processContent (cnt :: rest) errs ids
      = processContent rest
          (match cnt with | .error m => errs ++ [m] | .result _ => errs)
          (match cnt with | .error _ => ids | .result h => ids ++ [h]) := by
  cases cnt <;> rfl

/-- Processing one batch response grows `batchErrors` and `txHashes` by exactly
one element per response entry. -/
theorem processContent_count :
    ∀ (entries : List RpcResponseEntry) (errs ids : List String),
      (processContent entries errs ids).1.length
          + (processContent entries errs ids).2.length
        = errs.length + ids.length + entries.length := by
  intro entries
  induction entries with
  | nil => intro errs ids; simp [processContent]
  | cons cnt rest ih =>
    intro errs ids
    rw [processContent_cons]
    cases cnt with
    | error m => rw [ih]; simp; omega
    | result h => rw [ih]; simp; omega

/-- `sendTransactionWithRetry` processes exactly the first response among its
attempts, if any; when every attempt fails on transport it records nothing. -/
theorem sendTransactionWithRetry_spec :
    ∀ (attempts : List AttemptOutcome) (requests errs ids : List String),
      sendTransactionWithRetry requests attempts errs ids
        = match firstResponse attempts with
          | none => (errs, ids)
          | some entries => processContent entries errs ids := by
  intro attempts
  induction attempts with
  | nil => intro requests errs ids; rfl
  | cons a rest ih =>
    intro requests errs ids
    cases a with
    | response entries => rfl
    | failure m =>
      show sendTransactionWithRetry requests rest errs ids = _
      rw [ih]
      rfl

/-- `sendTransaction` (unbounded retry) returns exactly the processing of the
first response among the environment's attempt outcomes, and diverges (`none`)
when there is none. -/
theorem sendTransaction_spec :
    ∀ (attempts : List AttemptOutcome) (requests errs ids : List String),
      sendTransaction requests attempts errs ids
        = (firstResponse attempts).map (fun entries => processContent entries errs ids) := by
  intro attempts
  induction attempts with
  | nil => intro requests errs ids; rfl
  | cons a rest ih =>
    intro requests errs ids
    cases a with
    | response entries => rfl
    | failure m =>
      show sendTransaction requests rest errs ids = _
      rw [ih]
      rfl

/-! ## Claim C6 — partial-failure accounting -/

/-- C6, counterexample: one transaction is submitted to the dispatcher, all
three retry attempts fail on transport, and `sendTransactionWithRetry` returns
with no identifier and no error string collected (the exhaustion is only
logged): `0 + 0 ≠ 1`. -/
theorem C6_partial_failure_accounting_counterexample :
    sendTransactionWithRetry ["rawTx1"]
        [AttemptOutcome.failure "connection reset", AttemptOutcome.failure "connection reset",
          AttemptOutcome.failure "connection reset"] [] []
      = ([], []) ∧
    (sendTransactionWithRetry ["rawTx1"]
        [AttemptOutcome.failure "connection reset", AttemptOutcome.failure "connection reset",
          AttemptOutcome.failure "connection reset"] [] []).1.length
        + (sendTransactionWithRetry ["rawTx1"]
            [AttemptOutcome.failure "connection reset", AttemptOutcome.failure "connection reset",
              AttemptOutcome.failure "connection reset"] [] []).2.length
      ≠ (["rawTx1"] : List String).length := by
  exact ⟨rfl, by decide⟩

/-- C6 (amended): per dispatch call, the number of collected identifiers plus
collected error strings grows by exactly the number of *entries in the first
successful response* — which equals the number of transactions submitted only
when the node answers each request with exactly one entry. When every retry
attempt fails on transport, the bounded-retry path records neither identifiers
nor errors for the whole call (it only logs), so the sum can fall short of the
number submitted; the unbounded path either processes a response the same way
or never returns. -/
theorem C6_partial_failure_accounting_amended :
    ∀ (requests : List String) (attempts : List AttemptOutcome)
      (batchErrors txHashes : List String),
      (firstResponse attempts = none →
        sendTransactionWithRetry requests attempts batchErrors txHashes
          = (batchErrors, txHashes)) ∧
      (∀ entries, firstResponse attempts = some entries →
        (sendTransactionWithRetry requests attempts batchErrors txHashes).1.length
            + (sendTransactionWithRetry requests attempts batchErrors txHashes).2.length
          = batchErrors.length + txHashes.length + entries.length) ∧
      (∀ res, sendTransaction requests attempts batchErrors txHashes = some res →
        ∃ entries, firstResponse attempts = some entries ∧
          res.1.length + res.2.length
            = batchErrors.length + txHashes.length + entries.length) := by
  intro requests attempts errs ids
  refine ⟨?_, ?_, ?_⟩
  · intro hnone
    rw [sendTransactionWithRetry_spec, hnone]
  · intro entries hsome
    rw [sendTransactionWithRetry_spec, hsome]
    exact processContent_count entries errs ids
  · intro res hres
    rw [sendTransaction_spec] at hres
    rcases hfr : firstResponse attempts with _ | entries
    · rw [hfr] at hres
      exact absurd hres (by simp)
    · rw [hfr] at hres
      refine ⟨entries, rfl, ?_⟩
      have : processContent entries errs ids = res := by
        simpa using hres
      rw [← this]
      exact processContent_count entries errs ids

/-- Witness for C6 (amended): a call whose attempts all fail records nothing;
a call whose second attempt returns one error entry and one result entry grows
the two collections by exactly two. -/
theorem C6_partial_failure_accounting_amended_witness :
    sendTransactionWithRetry ["rawTx1"] [AttemptOutcome.failure "boom",
        AttemptOutcome.failure "boom", AttemptOutcome.failure "boom"] [] []
      = ([], []) ∧
    (sendTransactionWithRetry ["rawTx1", "rawTx2"]
        [AttemptOutcome.failure "boom",
          AttemptOutcome.response [RpcResponseEntry.result "h1",
            RpcResponseEntry.error "nonce too low"]] [] []).1.length
        + (sendTransactionWithRetry ["rawTx1", "rawTx2"]
            [AttemptOutcome.failure "boom",
              AttemptOutcome.response [RpcResponseEntry.result "h1",
                RpcResponseEntry.error "nonce too low"]] [] []).2.length
      = 0 + 0 + 2 ∧
    ∃ entries, firstResponse [AttemptOutcome.failure "boom",
        AttemptOutcome.response [RpcResponseEntry.result "h1",
          RpcResponseEntry.error "nonce too low"]] = some entries ∧
      (["nonce too low"] : List String).length + (["h1"] : List String).length
        = 0 + 0 + entries.length :=
  ⟨(C6_partial_failure_accounting_amended ["rawTx1"] [AttemptOutcome.failure "boom",
      AttemptOutcome.failure "boom", AttemptOutcome.failure "boom"] [] []).1 rfl,
    (C6_partial_failure_accounting_amended ["rawTx1", "rawTx2"]
      [AttemptOutcome.failure "boom",
        AttemptOutcome.response [RpcResponseEntry.result "h1",
          RpcResponseEntry.error "nonce too low"]] [] []).2.1
      [RpcResponseEntry.result "h1", RpcResponseEntry.error "nonce too low"] rfl,
    (C6_partial_failure_accounting_amended ["rawTx1", "rawTx2"]
      [AttemptOutcome.failure "boom",
        AttemptOutcome.response [RpcResponseEntry.result "h1",
          RpcResponseEntry.error "nonce too low"]] [] []).2.2
      (["nonce too low"], ["h1"]) rfl⟩

/-! ## Facts about transaction construction and nonces -/

/-- A successfully built transfer carries exactly the sender's current nonce
and address, whichever fee mode is used. -/
theorem createTransferTransaction_fields (chainID : Nat)
    (gasEstimation defaultValue : Int) (feeData : Option FeeData)
    (sender : senderAccount) (receiverAddress : String) (gasPrice : Int)
    (dynamic : Bool) (tx : TransactionRequest) :
    createTransferTransaction chainID gasEstimation defaultValue feeData sender
        receiverAddress gasPrice dynamic = .ok tx →
    tx.nonce = getNonce sender ∧ tx.sender = getAddress sender := by
  intro h
  unfold createTransferTransaction at h
  split at h
  · split at h
    · injection h with h'
      subst h'
      exact ⟨rfl, rfl⟩
    · exact absurd h (by simp)
  · injection h with h'
    subst h'
    exact ⟨rfl, rfl⟩

theorem constructInner_cons (chainID : Nat) (gasEstimation defaultValue : Int)
    (feeData : Option FeeData) (gasPrice : Int) (dynamic : Bool)
    (receiverAddrs : List String) (numAccounts i : Nat) (sender : senderAccount)
    (j : Nat) (js : List Nat) :
    constructInner chainID gasEstimation defaultValue feeData gasPrice dynamic
        receiverAddrs numAccounts i sender (j :: js)
      = (createTransferTransaction chainID gasEstimation defaultValue feeData sender
            (receiverAddrs.getD ((i + j) % numAccounts) "") gasPrice dynamic).bind
          (fun tx =>
            (constructInner chainID gasEstimation defaultValue feeData gasPrice dynamic
                receiverAddrs numAccounts i (incrNonce sender) js).bind
              (fun rest => .ok (tx :: rest.1, rest.2))) := rfl

/-- The inner construction loop assigns consecutive nonces: the signed
transactions of one sender carry exactly
`sender.nonce, sender.nonce + 1, …, sender.nonce + count − 1`. -/
theorem constructInner_nonces (chainID : Nat) (gasEstimation defaultValue : Int)
    (feeData : Option FeeData) (gasPrice : Int) (dynamic : Bool)
    (receiverAddrs : List String) (numAccounts i : Nat) :
    ∀ (js : List Nat) (sender : senderAccount)
      (res : List TransactionRequest × senderAccount),
      constructInner chainID gasEstimation defaultValue feeData gasPrice dynamic
          receiverAddrs numAccounts i sender js = .ok res →
      res.1.map TransactionRequest.nonce = List.range' sender.nonce js.length := by
  intro js
  induction js with
  | nil =>
    intro sender res h
    injection h with h'
    subst h'
    rfl
  | cons j js ih =>
    intro sender res h
    rw [constructInner_cons] at h
    rcases h1 : createTransferTransaction chainID gasEstimation defaultValue feeData
        sender (receiverAddrs.getD ((i + j) % numAccounts) "") gasPrice dynamic
      with e | tx
    · rw [h1] at h
      exact absurd h (by simp [Except.bind])
    · rw [h1] at h
      rcases h2 : constructInner chainID gasEstimation defaultValue feeData gasPrice
          dynamic receiverAddrs numAccounts i (incrNonce sender) js with e | rest
      · rw [h2] at h
        exact absurd h (by simp [Except.bind])
      · rw [h2] at h
        simp only [Except.bind] at h
        injection h with h'
        subst h'
        have hrest := ih (incrNonce sender) rest h2
        have htx := (createTransferTransaction_fields chainID gasEstimation defaultValue
          feeData sender (receiverAddrs.getD ((i + j) % numAccounts) "") gasPrice
          dynamic tx h1).1
        show tx.nonce :: rest.1.map TransactionRequest.nonce
            = List.range' sender.nonce (js.length + 1)
        rw [htx, hrest]
        rfl

theorem constructOuter_cons (chainID : Nat) (gasEstimation defaultValue : Int)
    (feeData : Option FeeData) (gasPrice : Int) (dynamic : Bool)
    (receiverAddrs : List String) (numAccounts numOfTxPerAccount : Nat)
    (i : Nat) (sender : senderAccount) (rest : List (Nat × senderAccount)) :
    constructOuter chainID gasEstimation defaultValue feeData gasPrice dynamic
        receiverAddrs numAccounts numOfTxPerAccount ((i, sender) :: rest)
      = (constructInner chainID gasEstimation defaultValue feeData gasPrice dynamic
            receiverAddrs numAccounts i sender (List.range numOfTxPerAccount)).bind
          (fun txs =>
            (constructOuter chainID gasEstimation defaultValue feeData gasPrice dynamic
                receiverAddrs numAccounts numOfTxPerAccount rest).bind
              (fun tail => .ok ((getAddress sender, txs.1) :: tail))) := rfl

theorem constructOuter_length (chainID : Nat) (gasEstimation defaultValue : Int)
    (feeData : Option FeeData) (gasPrice : Int) (dynamic : Bool)
    (receiverAddrs : List String) (numAccounts numOfTxPerAccount : Nat) :
    ∀ (pairs : List (Nat × senderAccount))
      (res : List (String × List TransactionRequest)),
      constructOuter chainID gasEstimation defaultValue feeData gasPrice dynamic
          receiverAddrs numAccounts numOfTxPerAccount pairs = .ok res →
      res.length = pairs.length := by
  intro pairs
  induction pairs with
  | nil =>
    intro res h
    injection h with h'
    subst h'
    rfl
  | cons q rest ih =>
    intro res h
    obtain ⟨i, sender⟩ := q
    rw [constructOuter_cons] at h
    rcases h1 : constructInner chainID gasEstimation defaultValue feeData gasPrice
        dynamic receiverAddrs numAccounts i sender (List.range numOfTxPerAccount)
      with e | txs
    · rw [h1] at h
      exact absurd h (by simp [Except.bind])
    · rw [h1] at h
      rcases h2 : constructOuter chainID gasEstimation defaultValue feeData gasPrice
          dynamic receiverAddrs numAccounts numOfTxPerAccount rest with e | tail
      · rw [h2] at h
        exact absurd h (by simp [Except.bind])
      · rw [h2] at h
        simp only [Except.bind] at h
        injection h with h'
        subst h'
        show tail.length + 1 = rest.length + 1
        rw [ih tail h2]

/-- Positional specification of the outer construction loop: the `k`-th result
entry belongs to the `k`-th sender and its transactions carry the consecutive
nonces starting at that sender's (current) nonce. -/
theorem constructOuter_spec (chainID : Nat) (gasEstimation defaultValue : Int)
    (feeData : Option FeeData) (gasPrice : Int) (dynamic : Bool)
    (receiverAddrs : List String) (numAccounts numOfTxPerAccount : Nat) :
    ∀ (pairs : List (Nat × senderAccount))
      (res : List (String × List TransactionRequest)),
      constructOuter chainID gasEstimation defaultValue feeData gasPrice dynamic
          receiverAddrs numAccounts numOfTxPerAccount pairs = .ok res →
      ∀ (k : Nat) (entry : String × List TransactionRequest) (p : Nat × senderAccount),
        res.get? k = some entry → pairs.get? k = some p →
        entry.1 = getAddress p.2 ∧
          entry.2.map TransactionRequest.nonce
            = List.range' p.2.nonce numOfTxPerAccount := by
  intro pairs
  induction pairs with
  | nil =>
    intro res h k entry p hres hp
    exact absurd hp (by simp)
  | cons q rest ih =>
    intro res h k entry p hres hp
    obtain ⟨i, sender⟩ := q
    rw [constructOuter_cons] at h
    rcases h1 : constructInner chainID gasEstimation defaultValue feeData gasPrice
        dynamic receiverAddrs numAccounts i sender (List.range numOfTxPerAccount)
      with e | txs
    · rw [h1] at h
      exact absurd h (by simp [Except.bind])
    · rw [h1] at h
      rcases h2 : constructOuter chainID gasEstimation defaultValue feeData gasPrice
          dynamic receiverAddrs numAccounts numOfTxPerAccount rest with e | tail
      · rw [h2] at h
        exact absurd h (by simp [Except.bind])
      · rw [h2] at h
        simp only [Except.bind] at h
        injection h with h'
        subst h'
        cases k with
        | zero =>
          injection hres with hres'
          injection hp with hp'
          subst hres'
          subst hp'
          refine ⟨rfl, ?_⟩
          have hn := constructInner_nonces chainID gasEstimation defaultValue feeData
            gasPrice dynamic receiverAddrs numAccounts i
            (List.range numOfTxPerAccount) sender txs h1
          rwa [List.length_range] at hn
        | succ m =>
          exact ih tail h2 m entry p hres hp

/-! ## Claim C2 — nonce monotonicity per sender account -/

/-- C2 (confirmed): whenever `EOARuntime.ConstructTransactions` succeeds on the
sender accounts prepared by `Signer.getSenderAccounts`, the `k`-th result entry
belongs to the `k`-th prepared account, and the nonces placed in that account's
transactions are exactly `List.range' (txCount accIndex) numOfTxPerAccount` —
the contiguous, strictly-increasing-by-one sequence starting at the on-chain
transaction count queried when the account was prepared, with no gaps or
repeats, independently of how many transactions other accounts receive. -/
theorem C2_nonce_monotonicity :
    ∀ (chainID : Nat) (gasEstimation defaultValue : Int) (feeData : Option FeeData)
      (gasPrice : Int) (txCount : Nat → Nat) (accountIndexes : List Nat)
      (numTxs numOfTxPerAccount : Nat) (dynamic : Bool)
      (result : List (String × List TransactionRequest)),
      ConstructTransactions chainID gasEstimation defaultValue feeData gasPrice
          (getSenderAccounts txCount accountIndexes numTxs) numOfTxPerAccount dynamic
        = .ok result →
      ∀ (k : Nat) (entry : String × List TransactionRequest),
        result.get? k = some entry →
        ∃ accIndex : Nat,
          (getSenderAccounts txCount accountIndexes numTxs).get? k
              = some ⟨accIndex, txCount accIndex, addressOf accIndex⟩ ∧
            entry.1 = addressOf accIndex ∧
            entry.2.map TransactionRequest.nonce
              = List.range' (txCount accIndex) numOfTxPerAccount := by
  intro chainID gasEstimation defaultValue feeData gasPrice txCount accountIndexes
    numTxs numOfTxPerAccount dynamic result h k entry hres
  have hlen := constructOuter_length chainID gasEstimation defaultValue feeData
    gasPrice dynamic
    ((getSenderAccounts txCount accountIndexes numTxs).map getAddress)
    (getSenderAccounts txCount accountIndexes numTxs).length numOfTxPerAccount
    (getSenderAccounts txCount accountIndexes numTxs).enum result h
  have hk : k < result.length := by
    by_contra hk
    rw [List.get?_eq_none.mpr (by omega)] at hres
    exact absurd hres (by simp)
  have hk' : k < (getSenderAccounts txCount accountIndexes numTxs).length := by
    rw [hlen, List.enum_length] at hk
    exact hk
  rcases hidx : (accountIndexes.take (if accountIndexes.length > numTxs then numTxs
      else accountIndexes.length)).get? k with _ | accIndex
  · exfalso
    have hlen2 : (getSenderAccounts txCount accountIndexes numTxs).length
        = (accountIndexes.take (if accountIndexes.length > numTxs then numTxs
            else accountIndexes.length)).length := by
      rw [getSenderAccounts, List.length_map]
    have hnone := List.get?_eq_none.mp hidx
    omega
  · have hacc : (getSenderAccounts txCount accountIndexes numTxs).get? k
        = some ⟨accIndex, txCount accIndex, addressOf accIndex⟩ := by
      rw [getSenderAccounts, List.get?_map, hidx]
      rfl
    have hpair : (getSenderAccounts txCount accountIndexes numTxs).enum.get? k
        = some (k, ⟨accIndex, txCount accIndex, addressOf accIndex⟩) := by
      rw [List.get?_enum, hacc]
      rfl
    have hspec := constructOuter_spec chainID gasEstimation defaultValue feeData
      gasPrice dynamic
      ((getSenderAccounts txCount accountIndexes numTxs).map getAddress)
      (getSenderAccounts txCount accountIndexes numTxs).length numOfTxPerAccount
      (getSenderAccounts txCount accountIndexes numTxs).enum result h k entry
      (k, ⟨accIndex, txCount accIndex, addressOf accIndex⟩) hres hpair
    exact ⟨accIndex, hacc, hspec.1, hspec.2⟩

/-- Witness for C2: one prepared account at mnemonic index 3 with queried
transaction count 15 and one transfer to construct; the single result entry
carries nonce 15. -/
theorem C2_nonce_monotonicity_witness :
    ∃ accIndex : Nat,
      (getSenderAccounts (fun i => 5 * i) [3] 10).get? 0
          = some ⟨accIndex, 5 * accIndex, addressOf accIndex⟩ ∧
        (addressOf 3,
          [{ sender := addressOf 3, chainId := 1, recipient := addressOf 3,
             gasLimit := 21000, value := 100, nonce := 15, gasPrice := some 7,
             maxFeePerGas := none, maxPriorityFeePerGas := none, txType := none
             : TransactionRequest }]).1 = addressOf accIndex ∧
        (addressOf 3,
          [{ sender := addressOf 3, chainId := 1, recipient := addressOf 3,
             gasLimit := 21000, value := 100, nonce := 15, gasPrice := some 7,
             maxFeePerGas := none, maxPriorityFeePerGas := none, txType := none
             : TransactionRequest }]).2.map TransactionRequest.nonce
          = List.range' (5 * accIndex) 1 :=
  C2_nonce_monotonicity 1 21000 100 none 7 (fun i => 5 * i) [3] 10 1 false
    [(addressOf 3,
      [{ sender := addressOf 3, chainId := 1, recipient := addressOf 3,
         gasLimit := 21000, value := 100, nonce := 15, gasPrice := some 7,
         maxFeePerGas := none, maxPriorityFeePerGas := none, txType := none
         : TransactionRequest }])] rfl 0
    (addressOf 3,
      [{ sender := addressOf 3, chainId := 1, recipient := addressOf 3,
         gasLimit := 21000, value := 100, nonce := 15, gasPrice := some 7,
         maxFeePerGas := none, maxPriorityFeePerGas := none, txType := none
         : TransactionRequest }]) rfl

end PandorasBox
